import Mathlib

/-!
Verification of the StreamCrawler stream-resolution protocol client
(`src/StreamCrawler/scraper.py`, with the equivalent standalone copies in
`src/StreamCrawler/test_fetch.py`).

The development shallow-embeds the protocol logic:

* the wire encoder `_encode_proto_string` / `build_fetch_body`,
* the embed-URL parser `parse_embed_url` (the regex
  `https?://[^/]+/embed/([^/]+)/(.+)/(\d+)$` under `re.match`),
* the post-response processing of `get_stream_url` (the `goat` header
  lookup, the best-effort UTF-8 decode of the body, the `lb\d+` scan with
  the `"lb2"` fallback, and the final playlist-URL synthesis).

Python strings are modelled as Lean `String`s; byte strings as `List Nat`
with every element below 256; machine integers do not occur.  `\d` is
modelled as `Char.isDigit`, `.` as any character other than `'\n'`, and the
`$` anchor as end of string.
-/

namespace StreamCrawler

/-! ## UTF-8 (Python `str.encode('utf-8')`) -/

/-- UTF-8 encoding of a single character, as a list of byte values
(the standard encoding used by Python `str.encode('utf-8')`). -/
def utf8EncodeChar (c : Char) : List Nat :=
  let v := c.toNat
  if v < 0x80 then [v]
  else if v < 0x800 then [0xC0 + v / 64, 0x80 + v % 64]
  else if v < 0x10000 then [0xE0 + v / 4096, 0x80 + v / 64 % 64, 0x80 + v % 64]
  else [0xF0 + v / 262144, 0x80 + v / 4096 % 64, 0x80 + v / 64 % 64, 0x80 + v % 64]

/-- UTF-8 encoding of a string: Python `value.encode('utf-8')`. -/
def utf8Encode (s : String) : List Nat :=
  s.data.foldr (fun c acc => utf8EncodeChar c ++ acc) []

/-- One step of UTF-8 decoding: given the first byte and the remaining
bytes, decode one character and return it with the not-yet-consumed bytes;
`none` on a byte sequence that is not the encoding of any character. -/
def utf8DecodeStep (b : Nat) (r : List Nat) : Option (Char × List Nat) :=
  if b < 0x80 then some (Char.ofNat b, r)
  else if b < 0xC0 then none
  else if b < 0xE0 then
    match r with
    | b1 :: r1 =>
      if 0x80 ≤ b1 ∧ b1 < 0xC0 then
        some (Char.ofNat ((b - 0xC0) * 64 + (b1 - 0x80)), r1)
      else none
    | [] => none
  else if b < 0xF0 then
    match r with
    | b1 :: b2 :: r2 =>
      if (0x80 ≤ b1 ∧ b1 < 0xC0) ∧ (0x80 ≤ b2 ∧ b2 < 0xC0) then
        some (Char.ofNat ((b - 0xE0) * 4096 + (b1 - 0x80) * 64 + (b2 - 0x80)), r2)
      else none
    | _ => none
  else if b < 0xF8 then
    match r with
    | b1 :: b2 :: b3 :: r3 =>
      if (0x80 ≤ b1 ∧ b1 < 0xC0) ∧ (0x80 ≤ b2 ∧ b2 < 0xC0) ∧ (0x80 ≤ b3 ∧ b3 < 0xC0) then
        some (Char.ofNat ((b - 0xF0) * 262144 + (b1 - 0x80) * 4096 +
          (b2 - 0x80) * 64 + (b3 - 0x80)), r3)
      else none
    | _ => none
  else none

/-- Fuelled driver for UTF-8 decoding; each step consumes at least one byte,
so `l.length` fuel always suffices. -/
def utf8DecodeGo : Nat → List Nat → Option (List Char)
  | _, [] => some []
  | 0, _ :: _ => none
  | fuel + 1, b :: r =>
    match utf8DecodeStep b r with
    | some (c, rest) => (utf8DecodeGo fuel rest).map (fun cs => c :: cs)
    | none => none

/-- UTF-8 decoding of a byte list into characters; fails on a byte sequence
that is not the encoding of any character sequence. -/
def utf8DecodeChars (l : List Nat) : Option (List Char) :=
  utf8DecodeGo l.length l

/-- UTF-8 decoding of a byte list into a string. -/
def utf8Decode (l : List Nat) : Option String :=
  (utf8DecodeChars l).map String.mk

/-! ## Wire encoder (`scraper.py`, `_encode_proto_string` / `build_fetch_body`;
identical copies in `test_fetch.py`) -/

/-- `_encode_proto_string(field_num, value)`: tag byte `(field_num << 3) | 2`,
one length byte, then the UTF-8 bytes of `value`.  Python's
`bytes([tag, len(encoded)])` raises `ValueError` when either entry is not a
byte value, which the `Option` models as `none`. -/
def _encode_proto_string (field_num : Nat) (value : String) : Option (List Nat) :=
  let encoded := utf8Encode value
  let tag := (field_num <<< 3) ||| 2
  if tag ≤ 255 ∧ encoded.length ≤ 255 then
    some (tag :: encoded.length :: encoded)
  else
    none

/-- `build_fetch_body(server, slug, stream_num)`: the three length-delimited
fields, tagged 1, 2, 3, concatenated in order. -/
def build_fetch_body (server slug stream_num : String) : Option (List Nat) := do
  let f1 ← _encode_proto_string 1 server
  let f2 ← _encode_proto_string 2 slug
  let f3 ← _encode_proto_string 3 stream_num
  return f1 ++ f2 ++ f3

/-! ## Tag/length/value decoder

Modelled from the spec: the generic tag/length/value scheme used to state the
round-trip law ("decoding `encode(reference)` with the same tag scheme").
The repository has no decoder of its own; this one reads, per field, a tag
byte `(fieldNumber << 3) | 2`, one length byte, and that many value bytes. -/

/-- Modelled from the spec: read one tag/length/value field with the given
field number from the front of `bytes`; return the value bytes and the rest. -/
def decodeTLVField (fieldNum : Nat) (bytes : List Nat) : Option (List Nat × List Nat) :=
  match bytes with
  | t :: l :: rest =>
    if t = (fieldNum <<< 3) ||| 2 ∧ l ≤ rest.length then
      some (rest.take l, rest.drop l)
    else none
  | _ => none

/-- Modelled from the spec: decode a whole fetch body — fields 1, 2, 3 in
order, consuming the entire message — and interpret each value as UTF-8. -/
def decode_fetch_body (bytes : List Nat) : Option (String × String × String) := do
  let (v1, r1) ← decodeTLVField 1 bytes
  let (v2, r2) ← decodeTLVField 2 r1
  let (v3, r3) ← decodeTLVField 3 r2
  if r3 = [] then
    let s1 ← utf8Decode v1
    let s2 ← utf8Decode v2
    let s3 ← utf8Decode v3
    return (s1, s2, s3)
  else none

/-- Modelled from the spec: one tag/length/value segment — the tag byte
`(fieldNumber << 3) | 2`, one length byte equal to the UTF-8 byte length of
the value, then the UTF-8 bytes of the value. -/
def spec_segment (fieldNumber : Nat) (value : String) : List Nat :=
  ((fieldNumber <<< 3) ||| 2) :: (utf8Encode value).length :: utf8Encode value

/-! ## Embed-URL parser (`scraper.py`, `parse_embed_url`)

The source matches `re.match(r'https?://[^/]+/embed/([^/]+)/(.+)/(\d+)$', u)`.
`[^/]+` stops at the first `/`; the literal `/embed/` must follow the host;
the server group stops at the next `/`; and the greedy `(.+)/(\d+)$` split
lands on the last `/` of the remainder, whose suffix must be one or more
digits reaching the end.  `(.+)` matches any character except a newline. -/

/-- The non-ASCII codepoint ranges matched by Python's `\d`: the Unicode
decimal-digit (category Nd) codepoints of Unicode 14.0.0 beyond ASCII
`0`-`9`, as in the `unicodedata` tables of CPython 3.11. -/
def pyNdRanges : List (Nat × Nat) :=
  [(0x660, 0x669), (0x6F0, 0x6F9), (0x7C0, 0x7C9), (0x966, 0x96F),
   (0x9E6, 0x9EF), (0xA66, 0xA6F), (0xAE6, 0xAEF), (0xB66, 0xB6F),
   (0xBE6, 0xBEF), (0xC66, 0xC6F), (0xCE6, 0xCEF), (0xD66, 0xD6F),
   (0xDE6, 0xDEF), (0xE50, 0xE59), (0xED0, 0xED9), (0xF20, 0xF29),
   (0x1040, 0x1049), (0x1090, 0x1099), (0x17E0, 0x17E9), (0x1810, 0x1819),
   (0x1946, 0x194F), (0x19D0, 0x19D9), (0x1A80, 0x1A89), (0x1A90, 0x1A99),
   (0x1B50, 0x1B59), (0x1BB0, 0x1BB9), (0x1C40, 0x1C49), (0x1C50, 0x1C59),
   (0xA620, 0xA629), (0xA8D0, 0xA8D9), (0xA900, 0xA909), (0xA9D0, 0xA9D9),
   (0xA9F0, 0xA9F9), (0xAA50, 0xAA59), (0xABF0, 0xABF9), (0xFF10, 0xFF19),
   (0x104A0, 0x104A9), (0x10D30, 0x10D39), (0x11066, 0x1106F),
   (0x110F0, 0x110F9), (0x11136, 0x1113F), (0x111D0, 0x111D9),
   (0x112F0, 0x112F9), (0x11450, 0x11459), (0x114D0, 0x114D9),
   (0x11650, 0x11659), (0x116C0, 0x116C9), (0x11730, 0x11739),
   (0x118E0, 0x118E9), (0x11950, 0x11959), (0x11C50, 0x11C59),
   (0x11D50, 0x11D59), (0x11DA0, 0x11DA9), (0x16A60, 0x16A69),
   (0x16AC0, 0x16AC9), (0x16B50, 0x16B59), (0x1D7CE, 0x1D7FF),
   (0x1E140, 0x1E149), (0x1E2F0, 0x1E2F9), (0x1E950, 0x1E959),
   (0x1FBF0, 0x1FBF9)]

/-- Python's `\d` on a character: an ASCII digit or any other Unicode
decimal digit (category Nd). -/
def isPyDigit (c : Char) : Bool :=
  c.isDigit || pyNdRanges.any (fun p => decide (p.1 ≤ c.toNat) && decide (c.toNat ≤ p.2))

/-- The suffix accepted by `(\d+)$`: one or more digits reaching the end of
the string, or one or more digits followed by exactly one final newline
(without `re.MULTILINE`, Python's `$` also matches just before a newline
that ends the string); returns the captured digit group. -/
def digitsDollar (t : List Char) : Option (List Char) :=
  if t ≠ [] ∧ t.all isPyDigit then some t
  else if t.dropLast ≠ [] ∧ t.dropLast.all isPyDigit ∧ t.getLast? = some '\n' then
    some t.dropLast
  else none

/-- Split a character list at its last `'/'`: returns the part before and the
part after (which then contains no `'/'`); `none` when no `'/'` occurs. -/
def splitLastSlash : List Char → Option (List Char × List Char)
  | [] => none
  | c :: rest =>
    match splitLastSlash rest with
    | some (a, b) => some (c :: a, b)
    | none => if c = '/' then some ([], rest) else none

/-- Consume the scheme part `https?://` of the regex. -/
def dropScheme (l : List Char) : Option (List Char) :=
  if "https://".data.isPrefixOf l then some (l.drop 8)
  else if "http://".data.isPrefixOf l then some (l.drop 7)
  else none

/-- Match `([^/]+)/(.+)/(\d+)$` against the part of the URL after
`/embed/`: the server group (non-empty, up to the next `/`), a `/`, and the
greedy slug/digits split at the last `/` — the slug non-empty and free of
newlines (`.` does not match a newline), the final segment one or more
digits reaching the end (or followed by one final newline, which `$`
tolerates). -/
def parseServerRest (r2 : List Char) : Option (List Char × List Char × List Char) :=
  if r2.takeWhile (fun c => c ≠ '/') = [] then none
  else
    match r2.dropWhile (fun c => c ≠ '/') with
    | _ :: r4 =>
      match splitLastSlash r4 with
      | some (slug, t) =>
        match digitsDollar t with
        | some num =>
          if slug ≠ [] ∧ slug.all (fun c => c ≠ '\n') then
            some (r2.takeWhile (fun c => c ≠ '/'), slug, num)
          else none
        | none => none
      | none => none
    | [] => none

/-- Match `[^/]+/embed/([^/]+)/(.+)/(\d+)$` against the part of the URL
after the scheme: the host (non-empty, up to the first `/`), the literal
`/embed/`, then the server/slug/digits groups. -/
def parseHostPath (r0 : List Char) : Option (List Char × List Char × List Char) :=
  if r0.takeWhile (fun c => c ≠ '/') = [] then none
  else if "/embed/".data.isPrefixOf (r0.dropWhile (fun c => c ≠ '/')) then
    parseServerRest ((r0.dropWhile (fun c => c ≠ '/')).drop 7)
  else none

/-- The regex match of `parse_embed_url`, on character lists. -/
def parseEmbedChars (l : List Char) : Option (List Char × List Char × List Char) := do
  let r0 ← dropScheme l
  parseHostPath r0

/-- `parse_embed_url(embed_url)`: extract `(server, slug, stream_num)` from
`https?://host/embed/{server}/{slug}/{num}`; `None` when the regex fails. -/
def parse_embed_url (embed_url : String) : Option (String × String × String) :=
  (parseEmbedChars embed_url.data).map
    (fun (s, l, n) => (String.mk s, String.mk l, String.mk n))

/-- Modelled from the spec: the input shape
`scheme://host/embed/<server>/<slug>/<digits>` — a scheme, a non-empty host
without `/`, the literal `/embed/`, a non-empty server segment without `/`, a
non-empty slug (which may itself contain `/`), and a non-empty final segment
of decimal digits. -/
def EmbedShape (url : String) : Prop :=
  ∃ scheme host server slug num : String,
    host ≠ "" ∧ (∀ c ∈ host.data, c ≠ '/') ∧
    server ≠ "" ∧ (∀ c ∈ server.data, c ≠ '/') ∧
    slug ≠ "" ∧ num ≠ "" ∧ (∀ c ∈ num.data, c.isDigit) ∧
    url = scheme ++ "://" ++ host ++ "/embed/" ++ server ++ "/" ++ slug ++ "/" ++ num

/-- Modelled from the spec and the regex's anchors: the input shape as the
program's pattern actually delimits it — as `EmbedShape`, but `$` also
tolerates exactly one newline ending the string after the digits. -/
def EmbedShapeLN (url : String) : Prop :=
  ∃ scheme host server slug num : String,
    host ≠ "" ∧ (∀ c ∈ host.data, c ≠ '/') ∧
    server ≠ "" ∧ (∀ c ∈ server.data, c ≠ '/') ∧
    slug ≠ "" ∧ num ≠ "" ∧ (∀ c ∈ num.data, c.isDigit) ∧
    (url = scheme ++ "://" ++ host ++ "/embed/" ++ server ++ "/" ++ slug ++ "/" ++ num ∨
     url = scheme ++ "://" ++ host ++ "/embed/" ++ server ++ "/" ++ slug ++ "/" ++ num ++ "\n")

/-! ## Token exchange client (`scraper.py`, `get_stream_url`)

The single network side effect — `requests.post` — is modelled by passing the
completed HTTP response explicitly; everything after the `requests.post` call
in `get_stream_url` is embedded as a pure function of that response. -/

/-- A completed HTTP response: status code, response headers
(key/value pairs), and the raw body bytes (`resp.content`). -/
structure HttpResponse where
  statusCode : Nat
  headers : List (String × String)
  content : List Nat

/-- ASCII lowercasing of a character (header names are ASCII). -/
def lowerChar (c : Char) : Char :=
  if 'A' ≤ c ∧ c ≤ 'Z' then Char.ofNat (c.toNat + 32) else c

/-- ASCII lowercasing of a string. -/
def lowerStr (s : String) : String :=
  String.mk (s.data.map lowerChar)

/-- `resp.headers.get(key)`: case-insensitive header lookup
(`requests` exposes headers as a case-insensitive mapping). -/
def headerGet (headers : List (String × String)) (key : String) : Option String :=
  (headers.find? (fun kv => lowerStr kv.1 = lowerStr key)).map (fun kv => kv.2)

/-- The Unicode replacement character U+FFFD. -/
def replacementChar : Char := Char.ofNat 0xFFFD

/-- One step of best-effort UTF-8 decoding: given the first byte and the
remaining bytes, produce the decoded character (U+FFFD for an invalid
maximal subpart, as CPython's `errors='replace'` does) and the bytes not yet
consumed. -/
def utf8ReplStep (b : Nat) (rest : List Nat) : Char × List Nat :=
  let cont := fun (x : Nat) => 0x80 ≤ x ∧ x < 0xC0
  if b < 0x80 then (Char.ofNat b, rest)
  else if b < 0xC2 then (replacementChar, rest)
  else if b < 0xE0 then
    match rest with
    | b1 :: r1 =>
      if cont b1 then (Char.ofNat ((b - 0xC0) * 64 + (b1 - 0x80)), r1)
      else (replacementChar, rest)
    | [] => (replacementChar, [])
  else if b < 0xF0 then
    match rest with
    | b1 :: r1 =>
      let ok1 := if b = 0xE0 then 0xA0 ≤ b1 ∧ b1 < 0xC0
                 else if b = 0xED then 0x80 ≤ b1 ∧ b1 < 0xA0
                 else cont b1
      if ok1 then
        match r1 with
        | b2 :: r2 =>
          if cont b2 then
            (Char.ofNat ((b - 0xE0) * 4096 + (b1 - 0x80) * 64 + (b2 - 0x80)), r2)
          else (replacementChar, r1)
        | [] => (replacementChar, [])
      else (replacementChar, rest)
    | [] => (replacementChar, [])
  else if b < 0xF5 then
    match rest with
    | b1 :: r1 =>
      let ok1 := if b = 0xF0 then 0x90 ≤ b1 ∧ b1 < 0xC0
                 else if b = 0xF4 then 0x80 ≤ b1 ∧ b1 < 0x90
                 else cont b1
      if ok1 then
        match r1 with
        | b2 :: r2 =>
          if cont b2 then
            match r2 with
            | b3 :: r3 =>
              if cont b3 then
                (Char.ofNat ((b - 0xF0) * 262144 + (b1 - 0x80) * 4096 +
                  (b2 - 0x80) * 64 + (b3 - 0x80)), r3)
              else (replacementChar, r2)
            | [] => (replacementChar, [])
          else (replacementChar, r1)
        | [] => (replacementChar, [])
      else (replacementChar, rest)
    | [] => (replacementChar, [])
  else (replacementChar, rest)

/-- Fuelled driver for best-effort UTF-8 decoding; each step consumes at
least one byte, so `l.length` fuel always suffices. -/
def utf8ReplGo : Nat → List Nat → List Char
  | 0, _ => []
  | _, [] => []
  | fuel + 1, b :: rest =>
    let (c, r) := utf8ReplStep b rest
    c :: utf8ReplGo fuel r

/-- `resp.content.decode('utf-8', errors='replace')`: total best-effort
UTF-8 decoding, replacing each invalid maximal subpart with U+FFFD. -/
def utf8DecodeReplace (l : List Nat) : String :=
  String.mk (utf8ReplGo l.length l)

/-- Try to match `lb\d+` at the head of the list: the literal `lb` followed
by a maximal non-empty run of `\d` digits (any Unicode decimal digit). -/
def matchLbAt : List Char → Option (List Char)
  | 'l' :: 'b' :: rest =>
    let ds := rest.takeWhile isPyDigit
    if ds = [] then none else some ('l' :: 'b' :: ds)
  | _ => none

/-- `re.search(r'lb\d+', s)` on characters: the leftmost match of `lb`
followed by one or more digits, digits taken greedily. -/
def searchLbChars : List Char → Option (List Char)
  | [] => none
  | c :: rest =>
    match matchLbAt (c :: rest) with
    | some m => some m
    | none => searchLbChars rest

/-- `re.search(r'lb\d+', body_str)` as a string-level search. -/
def searchLb (s : String) : Option String :=
  (searchLbChars s.data).map String.mk

/-- The final m3u8 URL construction in `get_stream_url`:
`f"https://{lb_server}.strmd.top/secure/{goat_token}/{server}/stream/{slug}/{stream_num}/playlist.m3u8"`. -/
def synthesize_m3u8 (lb_server goat_token server slug stream_num : String) : String :=
  "https://" ++ lb_server ++ ".strmd.top/secure/" ++ goat_token ++
    "/" ++ server ++ "/stream/" ++ slug ++ "/" ++ stream_num ++ "/playlist.m3u8"

/-- The request headers dictionary built in `get_stream_url`. -/
def request_headers (embed_url : String) : List (String × String) :=
  [("User-Agent",
      "Mozilla/5.0 (Windows NT 10.0; Win64; x64) AppleWebKit/537.36 (KHTML, like Gecko) Chrome/114.0.0.0 Safari/537.36"),
   ("Content-Type", "application/octet-stream"),
   ("Referer", embed_url),
   ("Origin", "https://embedsporty.top")]

/-- The possible return values of `get_stream_url`: the empty dict `{}` when
the embed URL does not parse, an `{'error': ...}` dict, or the populated
`{'goat': ..., 'lb': ..., 'm3u8': ...}` dict. -/
inductive FetchOutcome where
  | empty : FetchOutcome
  | err : String → FetchOutcome
  | ok : (goat lb m3u8 : String) → FetchOutcome
deriving DecidableEq, Repr

/-- `get_stream_url(embed_url)` given the completed HTTP response `resp`:
parse the embed URL (empty dict on failure); `resp.raise_for_status()`
(an error dict for a 4xx/5xx status — `requests` raises exactly for
400-599 — modelled with the marker message `"HTTPError"` since the Python
message interpolates library text); require a non-empty `goat` header; scan
the decoded body for `lb\d+` falling back to `"lb2"`; and assemble the
m3u8 URL. -/
def get_stream_url (embed_url : String) (resp : HttpResponse) : FetchOutcome :=
  match parse_embed_url embed_url with
  | none => .empty
  | some (server, slug, stream_num) =>
    if 400 ≤ resp.statusCode ∧ resp.statusCode < 600 then .err "HTTPError"
    else
      match headerGet resp.headers "goat" with
      | none => .err "No goat header in response"
      | some goat_token =>
        if goat_token = "" then .err "No goat header in response"
        else
          let body_str := utf8DecodeReplace resp.content
          let lb_server := (searchLb body_str).getD "lb2"
          .ok goat_token lb_server
            (synthesize_m3u8 lb_server goat_token server slug stream_num)

/-- The fixed CDN domain of the synthesized playlist URL. -/
def cdnDomain : String := "strmd.top"

/-- Modelled from the spec: the playlist-URL template
`https://{loadBalancerId}.{cdnDomain}/secure/{token}/{server}/stream/{slug}/{streamIndex}/playlist.m3u8`. -/
def spec_playlist_url (token loadBalancerId server slug streamIndex : String) : String :=
  "https://" ++ loadBalancerId ++ "." ++ cdnDomain ++ "/secure/" ++ token ++
    "/" ++ server ++ "/stream/" ++ slug ++ "/" ++ streamIndex ++ "/playlist.m3u8"

/-! ## Helper lemmas: UTF-8 round trip -/

theorem utf8DecodeStep_length {b : Nat} {r rest : List Nat} {c : Char}
    (h : utf8DecodeStep b r = some (c, rest)) : rest.length ≤ r.length := by
  unfold utf8DecodeStep at h
  repeat' split at h
  all_goals first
    | (simp only [Option.some.injEq, Prod.mk.injEq] at h
       obtain ⟨-, rfl⟩ := h
       try simp only [List.length_cons]
       omega)
    | simp at h

theorem utf8DecodeGo_fuel :
    ∀ fuel₁ fuel₂ (l : List Nat), l.length ≤ fuel₁ → l.length ≤ fuel₂ →
      utf8DecodeGo fuel₁ l = utf8DecodeGo fuel₂ l := by
  intro fuel₁
  induction fuel₁ with
  | zero =>
    intro fuel₂ l h1 _
    have hl : l = [] := by cases l <;> simp_all
    subst hl
    cases fuel₂ <;> rfl
  | succ f ih =>
    intro fuel₂ l h1 h2
    cases l with
    | nil => cases fuel₂ <;> rfl
    | cons b r =>
      cases fuel₂ with
      | zero => simp at h2
      | succ g =>
        simp only [utf8DecodeGo]
        cases hstep : utf8DecodeStep b r with
        | none => rfl
        | some cr =>
          obtain ⟨c, rest⟩ := cr
          have hlen := utf8DecodeStep_length hstep
          simp only [List.length_cons] at h1 h2
          dsimp only
          rw [ih g rest (by omega) (by omega)]

theorem utf8DecodeStep_encodeChar (c : Char) (rest : List Nat) :
    ∃ b t, utf8EncodeChar c ++ rest = b :: t ∧ utf8DecodeStep b t = some (c, rest) := by
  have hval : c.toNat < 0xd800 ∨ (0xdfff < c.toNat ∧ c.toNat < 0x110000) := c.valid
  by_cases h1 : c.toNat < 0x80
  · refine ⟨c.toNat, rest, ?_, ?_⟩
    · unfold utf8EncodeChar; rw [if_pos h1]; rfl
    · unfold utf8DecodeStep; rw [if_pos h1, Char.ofNat_toNat]
  · by_cases h2 : c.toNat < 0x800
    · refine ⟨0xC0 + c.toNat / 64, (0x80 + c.toNat % 64) :: rest, ?_, ?_⟩
      · unfold utf8EncodeChar; rw [if_neg h1, if_pos h2]; rfl
      · unfold utf8DecodeStep
        rw [if_neg (by omega), if_neg (by omega), if_pos (by omega)]
        dsimp only
        rw [if_pos ⟨by omega, by omega⟩]
        have hv : (0xC0 + c.toNat / 64 - 0xC0) * 64 + (0x80 + c.toNat % 64 - 0x80)
            = c.toNat := by omega
        rw [hv, Char.ofNat_toNat]
    · by_cases h3 : c.toNat < 0x10000
      · refine ⟨0xE0 + c.toNat / 4096,
          (0x80 + c.toNat / 64 % 64) :: (0x80 + c.toNat % 64) :: rest, ?_, ?_⟩
        · unfold utf8EncodeChar; rw [if_neg h1, if_neg h2, if_pos h3]; rfl
        · unfold utf8DecodeStep
          rw [if_neg (by omega), if_neg (by omega), if_neg (by omega), if_pos (by omega)]
          dsimp only
          rw [if_pos ⟨⟨by omega, by omega⟩, by omega, by omega⟩]
          have hv : (0xE0 + c.toNat / 4096 - 0xE0) * 4096 +
              (0x80 + c.toNat / 64 % 64 - 0x80) * 64 + (0x80 + c.toNat % 64 - 0x80)
              = c.toNat := by omega
          rw [hv, Char.ofNat_toNat]
      · have h4 : c.toNat < 0x110000 := by omega
        refine ⟨0xF0 + c.toNat / 262144,
          (0x80 + c.toNat / 4096 % 64) :: (0x80 + c.toNat / 64 % 64) ::
            (0x80 + c.toNat % 64) :: rest, ?_, ?_⟩
        · unfold utf8EncodeChar; rw [if_neg h1, if_neg h2, if_neg h3]; rfl
        · unfold utf8DecodeStep
          rw [if_neg (by omega), if_neg (by omega), if_neg (by omega), if_neg (by omega),
            if_pos (by omega)]
          dsimp only
          rw [if_pos ⟨⟨by omega, by omega⟩, ⟨by omega, by omega⟩, by omega, by omega⟩]
          have hv : (0xF0 + c.toNat / 262144 - 0xF0) * 262144 +
              (0x80 + c.toNat / 4096 % 64 - 0x80) * 4096 +
              (0x80 + c.toNat / 64 % 64 - 0x80) * 64 + (0x80 + c.toNat % 64 - 0x80)
              = c.toNat := by omega
          rw [hv, Char.ofNat_toNat]

theorem utf8DecodeGo_encodeList (rest : List Nat) :
    ∀ (cs : List Char) (fuel : Nat),
      (cs.foldr (fun c acc => utf8EncodeChar c ++ acc) [] ++ rest).length ≤ fuel →
      utf8DecodeGo fuel (cs.foldr (fun c acc => utf8EncodeChar c ++ acc) [] ++ rest) =
        (utf8DecodeGo rest.length rest).map (fun l => cs ++ l) := by
  intro cs
  induction cs with
  | nil =>
    intro fuel hfuel
    simp only [List.foldr_nil, List.nil_append] at hfuel ⊢
    rw [utf8DecodeGo_fuel fuel rest.length rest hfuel (Nat.le_refl _)]
    cases utf8DecodeGo rest.length rest <;> simp
  | cons c cs ih =>
    intro fuel hfuel
    simp only [List.foldr_cons, List.append_assoc] at hfuel ⊢
    obtain ⟨b, t, henc, hstep⟩ :=
      utf8DecodeStep_encodeChar c (cs.foldr (fun c acc => utf8EncodeChar c ++ acc) [] ++ rest)
    rw [henc] at hfuel ⊢
    cases fuel with
    | zero => simp at hfuel
    | succ f =>
      simp only [utf8DecodeGo, hstep]
      have hlen := utf8DecodeStep_length hstep
      simp only [List.length_cons] at hfuel
      rw [ih f (by omega)]
      cases utf8DecodeGo rest.length rest <;> simp

theorem utf8Decode_encode (s : String) : utf8Decode (utf8Encode s) = some s := by
  have h := utf8DecodeGo_encodeList [] s.data
      (s.data.foldr (fun c acc => utf8EncodeChar c ++ acc) [] ++ []).length (Nat.le_refl _)
  rw [List.append_nil] at h
  unfold utf8Decode utf8DecodeChars utf8Encode
  rw [h]
  cases s
  simp [utf8DecodeGo]

/-! ## Helper lemmas: wire encoder -/

theorem encode_proto_eq_some (field_num : Nat) (value : String)
    (htag : (field_num <<< 3) ||| 2 ≤ 255)
    (hlen : (utf8Encode value).length ≤ 255) :
    _encode_proto_string field_num value = some (spec_segment field_num value) := by
  unfold _encode_proto_string spec_segment
  rw [if_pos ⟨htag, hlen⟩]

theorem build_fetch_body_eq (server slug stream_num : String)
    (h1 : (utf8Encode server).length ≤ 255)
    (h2 : (utf8Encode slug).length ≤ 255)
    (h3 : (utf8Encode stream_num).length ≤ 255) :
    build_fetch_body server slug stream_num =
      some (spec_segment 1 server ++ spec_segment 2 slug ++ spec_segment 3 stream_num) := by
  unfold build_fetch_body
  rw [encode_proto_eq_some 1 server (by decide) h1,
    encode_proto_eq_some 2 slug (by decide) h2,
    encode_proto_eq_some 3 stream_num (by decide) h3]
  rfl

theorem decodeTLVField_segment (n : Nat) (value : String) (rest : List Nat) :
    decodeTLVField n (spec_segment n value ++ rest) = some (utf8Encode value, rest) := by
  have hshape : spec_segment n value ++ rest =
      ((n <<< 3) ||| 2) :: (utf8Encode value).length :: (utf8Encode value ++ rest) := by
    simp [spec_segment]
  rw [hshape]
  unfold decodeTLVField
  dsimp only
  rw [if_pos ⟨rfl, by simp⟩]
  rw [List.take_left, List.drop_left]

/-! ## Claim theorems: wire encoder -/

/-- C2: for every reference whose field values each fit in 255 UTF-8 bytes,
the encoder output is exactly the concatenation, in field order (server = 1,
slug = 2, streamIndex = 3), of three tag/length/value segments — one tag byte
`(fieldNumber << 3) | 2`, one length byte equal to the UTF-8 byte length of
the value, then the UTF-8 bytes of the value — with no padding and no
message-level prefix. -/
theorem wire_encoder_segments (server slug stream_num : String)
    (h1 : (utf8Encode server).length ≤ 255)
    (h2 : (utf8Encode slug).length ≤ 255)
    (h3 : (utf8Encode stream_num).length ≤ 255) :
    build_fetch_body server slug stream_num =
      some (spec_segment 1 server ++ spec_segment 2 slug ++ spec_segment 3 stream_num) :=
  build_fetch_body_eq server slug stream_num h1 h2 h3

/-- Witness for C2 at a concrete reference. -/
theorem wire_encoder_segments_witness :
    build_fetch_body "echo" "team-a-vs-team-b-12345" "1" =
      some (spec_segment 1 "echo" ++ spec_segment 2 "team-a-vs-team-b-12345" ++
        spec_segment 3 "1") :=
  wire_encoder_segments "echo" "team-a-vs-team-b-12345" "1"
    (by decide) (by decide) (by decide)

/-- C1: for every reference whose three field values each have UTF-8 byte
length at most 255, decoding the encoder's output with the same
tag/length/value scheme reproduces the original three strings exactly. -/
theorem encode_decode_round_trip (server slug stream_num : String)
    (h1 : (utf8Encode server).length ≤ 255)
    (h2 : (utf8Encode slug).length ≤ 255)
    (h3 : (utf8Encode stream_num).length ≤ 255) :
    ∃ body, build_fetch_body server slug stream_num = some body ∧
      decode_fetch_body body = some (server, slug, stream_num) := by
  refine ⟨_, build_fetch_body_eq server slug stream_num h1 h2 h3, ?_⟩
  unfold decode_fetch_body
  rw [List.append_assoc, decodeTLVField_segment]
  simp only [Option.bind_eq_bind, Option.some_bind]
  rw [decodeTLVField_segment]
  simp only [Option.some_bind]
  have hlast : spec_segment 3 stream_num = spec_segment 3 stream_num ++ [] :=
    (List.append_nil _).symm
  rw [hlast, decodeTLVField_segment]
  simp only [Option.some_bind]
  rw [if_pos trivial]
  rw [utf8Decode_encode, utf8Decode_encode, utf8Decode_encode]
  rfl

/-- Witness for C1 at a concrete reference. -/
theorem encode_decode_round_trip_witness :
    ∃ body, build_fetch_body "echo" "team-a-vs-team-b-12345" "1" = some body ∧
      decode_fetch_body body = some ("echo", "team-a-vs-team-b-12345", "1") :=
  encode_decode_round_trip "echo" "team-a-vs-team-b-12345" "1"
    (by decide) (by decide) (by decide)

/-- C3: encoding fails exactly when some field value is longer than 255
UTF-8 bytes (one length byte cannot represent it); in particular a slug of
256 bytes fails while a slug of exactly 255 bytes encodes successfully. -/
theorem encoder_overflow :
    (∀ server slug stream_num : String,
      (build_fetch_body server slug stream_num = none ↔
        255 < (utf8Encode server).length ∨ 255 < (utf8Encode slug).length ∨
          255 < (utf8Encode stream_num).length)) ∧
    build_fetch_body "x" (String.mk (List.replicate 256 'a')) "1" = none ∧
    (build_fetch_body "x" (String.mk (List.replicate 255 'a')) "1").isSome = true := by
  have hrep : ∀ n : Nat, utf8Encode (String.mk (List.replicate n 'a')) =
      List.replicate n 97 := by
    intro n
    induction n with
    | zero => rfl
    | succ k ihk =>
      unfold utf8Encode at ihk ⊢
      simp only [List.replicate_succ, List.foldr_cons]
      rw [ihk]
      rfl
  have hmain : ∀ server slug stream_num : String,
      (build_fetch_body server slug stream_num = none ↔
        255 < (utf8Encode server).length ∨ 255 < (utf8Encode slug).length ∨
          255 < (utf8Encode stream_num).length) := by
    intro server slug stream_num
    constructor
    · intro h
      by_contra hc
      push_neg at hc
      obtain ⟨a, b, c⟩ := hc
      rw [build_fetch_body_eq server slug stream_num
        (by omega) (by omega) (by omega)] at h
      exact Option.noConfusion h
    · intro h
      unfold build_fetch_body
      rcases h with h | h | h
      · have h0 : _encode_proto_string 1 server = none := by
          unfold _encode_proto_string
          rw [if_neg (by omega)]
        rw [h0]
        simp
      · have h0 : _encode_proto_string 2 slug = none := by
          unfold _encode_proto_string
          rw [if_neg (by omega)]
        rw [h0]
        cases _encode_proto_string 1 server <;> simp
      · have h0 : _encode_proto_string 3 stream_num = none := by
          unfold _encode_proto_string
          rw [if_neg (by omega)]
        rw [h0]
        cases _encode_proto_string 1 server <;>
          [skip; cases _encode_proto_string 2 slug] <;> simp
  refine ⟨hmain, ?_, ?_⟩
  · refine (hmain _ _ _).mpr (Or.inr (Or.inl ?_))
    rw [hrep 256, List.length_replicate]
    omega
  · rw [build_fetch_body_eq _ _ _ (by decide)
      (by rw [hrep 255, List.length_replicate]) (by decide)]
    rfl

/-! ## Claim theorems: URL synthesis and exchange -/

/-- C6: the synthesized playlist URL is exactly the fixed template
`https://{loadBalancerId}.{cdnDomain}/secure/{token}/{server}/stream/{slug}/{streamIndex}/playlist.m3u8`
with every placeholder substituted verbatim; in particular the concrete
instance from the spec. -/
theorem synthesize_matches_template :
    (∀ lb_server goat_token server slug stream_num : String,
      synthesize_m3u8 lb_server goat_token server slug stream_num =
        spec_playlist_url goat_token lb_server server slug stream_num) ∧
    synthesize_m3u8 "lb10" "abc123" "echo" "team-a-vs-team-b-12345" "1" =
      "https://lb10.strmd.top/secure/abc123/echo/stream/team-a-vs-team-b-12345/1/playlist.m3u8" := by
  constructor
  · intro lb goat server slug num
    have hseg : ∀ a : String, ((a ++ ".") ++ cdnDomain) ++ "/secure/" =
        a ++ ".strmd.top/secure/" := by
      intro a
      simp only [String.append_assoc]
      congr 1
    unfold synthesize_m3u8 spec_playlist_url
    rw [hseg]
  · rfl

/-- C7 counterexample: two success responses that differ in status code
(200 vs 204) and in their header lists, both lacking a `goat` header,
produce identical exchange results — so neither the status code nor the
headers are surfaced to the caller, contrary to the claim. -/
theorem missing_token_not_surfaced :
    get_stream_url "https://host/embed/echo/slug/1"
        ⟨200, [("Content-Type", "text/html")], []⟩ =
      get_stream_url "https://host/embed/echo/slug/1" ⟨204, [("Server", "nginx")], []⟩ ∧
    get_stream_url "https://host/embed/echo/slug/1"
        ⟨200, [("Content-Type", "text/html")], []⟩ =
      .err "No goat header in response" ∧
    (200 : Nat) ≠ 204 := by
  refine ⟨?_, ?_, by decide⟩ <;> decide

/-- C7 (amended): a completed exchange with a success status and a missing
(or empty) `goat` header is reported as the missing-token failure
`{'error': 'No goat header in response'}` — never as a resolution — but the
returned value does not include the status code or headers. -/
theorem missing_token_failure (embed_url : String) (resp : HttpResponse)
    (server slug stream_num : String)
    (hparse : parse_embed_url embed_url = some (server, slug, stream_num))
    (hstatus : resp.statusCode < 400)
    (hgoat : headerGet resp.headers "goat" = none ∨
      headerGet resp.headers "goat" = some "") :
    get_stream_url embed_url resp = .err "No goat header in response" := by
  unfold get_stream_url
  rw [hparse]
  dsimp only
  rw [if_neg (by omega)]
  rcases hgoat with hgoat | hgoat
  · rw [hgoat]
  · rw [hgoat]
    dsimp only
    rw [if_pos rfl]

/-- Witness for C7's amended theorem at a concrete response. -/
theorem missing_token_failure_witness :
    get_stream_url "https://host/embed/echo/slug/1"
        ⟨200, [("Content-Type", "text/html")], []⟩ =
      .err "No goat header in response" :=
  missing_token_failure _ _ "echo" "slug" "1" (by decide) (by decide)
    (Or.inl (by decide))

/-- C8: on a success response with a non-empty token header, the
load-balancer identifier is the first `lb`-plus-digits substring of the
best-effort UTF-8 decoding of the raw body, with the fixed fallback `"lb2"`
when no such substring exists — and the exchange succeeds either way. -/
theorem lb_extraction (embed_url : String) (resp : HttpResponse)
    (server slug stream_num goat : String)
    (hparse : parse_embed_url embed_url = some (server, slug, stream_num))
    (hstatus : resp.statusCode < 400)
    (hgoat : headerGet resp.headers "goat" = some goat)
    (hne : goat ≠ "") :
    get_stream_url embed_url resp =
      .ok goat ((searchLb (utf8DecodeReplace resp.content)).getD "lb2")
        (synthesize_m3u8 ((searchLb (utf8DecodeReplace resp.content)).getD "lb2")
          goat server slug stream_num) ∧
    (searchLb (utf8DecodeReplace resp.content) = none →
      get_stream_url embed_url resp =
        .ok goat "lb2" (synthesize_m3u8 "lb2" goat server slug stream_num)) := by
  have hmain : get_stream_url embed_url resp =
      .ok goat ((searchLb (utf8DecodeReplace resp.content)).getD "lb2")
        (synthesize_m3u8 ((searchLb (utf8DecodeReplace resp.content)).getD "lb2")
          goat server slug stream_num) := by
    unfold get_stream_url
    rw [hparse]
    dsimp only
    rw [if_neg (by omega), hgoat]
    dsimp only
    rw [if_neg hne]
  refine ⟨hmain, fun hnone => ?_⟩
  rw [hmain, hnone]
  rfl

/-- Witness for C8 at a concrete response whose body (a lone invalid UTF-8
byte) contains no `lb`-digits substring, exercising the fallback. -/
theorem lb_extraction_witness :
    get_stream_url "https://host/embed/echo/slug/1" ⟨200, [("goat", "tok")], [255]⟩ =
      .ok "tok" "lb2" (synthesize_m3u8 "lb2" "tok" "echo" "slug" "1") :=
  (lb_extraction _ _ "echo" "slug" "1" "tok" (by decide) (by decide) (by decide)
    (by decide)).2 (by decide)

/-- C9 counterexample: for an embed URL whose host is not
`embedsporty.top`, the `Origin` request header is still the fixed constant
`https://embedsporty.top`, which is neither the embed URL's host nor the
embed URL's scheme-plus-host origin. -/
theorem request_origin_counterexample :
    headerGet (request_headers "https://example.org/embed/a/b/1") "Origin" =
        some "https://embedsporty.top" ∧
    ("https://embedsporty.top" : String) ≠ "example.org" ∧
    ("https://embedsporty.top" : String) ≠ "https://example.org" := by
  refine ⟨?_, ?_, ?_⟩ <;> decide

/-- C9 (amended): for every embed URL, the request headers carry
`Content-Type: application/octet-stream`, `Referer` set to the embed URL
itself, and `Origin` set to the fixed constant `https://embedsporty.top`. -/
theorem request_headers_values (embed_url : String) :
    headerGet (request_headers embed_url) "Content-Type" =
        some "application/octet-stream" ∧
    headerGet (request_headers embed_url) "Referer" = some embed_url ∧
    headerGet (request_headers embed_url) "Origin" =
        some "https://embedsporty.top" :=
  ⟨rfl, rfl, rfl⟩

/-! ## Helper lemmas: embed-URL parser -/

theorem splitLastSlash_none {l : List Char} (h : ∀ c ∈ l, c ≠ '/') :
    splitLastSlash l = none := by
  induction l with
  | nil => rfl
  | cons c rest ih =>
    simp only [splitLastSlash]
    rw [ih (fun x hx => h x (List.mem_cons_of_mem _ hx))]
    rw [if_neg (h c (List.mem_cons_self c rest))]

theorem splitLastSlash_append (slug num : List Char) (h : ∀ c ∈ num, c ≠ '/') :
    splitLastSlash (slug ++ '/' :: num) = some (slug, num) := by
  induction slug with
  | nil =>
    simp only [List.nil_append, splitLastSlash]
    rw [splitLastSlash_none h]
    simp
  | cons c cs ih =>
    simp only [List.cons_append, splitLastSlash, List.append_eq, ih]

theorem splitLastSlash_eq_none {l : List Char} (h : splitLastSlash l = none) :
    ∀ c ∈ l, c ≠ '/' := by
  induction l with
  | nil => simp
  | cons c rest ih =>
    simp only [splitLastSlash] at h
    cases hs : splitLastSlash rest with
    | some ab =>
      obtain ⟨a, b⟩ := ab
      simp [hs] at h
    | none =>
      simp only [hs] at h
      by_cases hc : c = '/'
      · rw [if_pos hc] at h
        exact absurd h (by simp)
      · intro x hx
        rcases List.mem_cons.mp hx with rfl | hx'
        · exact hc
        · exact ih hs x hx'

theorem splitLastSlash_eq_some {l a b : List Char}
    (h : splitLastSlash l = some (a, b)) :
    l = a ++ '/' :: b ∧ ∀ c ∈ b, c ≠ '/' := by
  induction l generalizing a b with
  | nil => simp [splitLastSlash] at h
  | cons c rest ih =>
    simp only [splitLastSlash] at h
    cases hs : splitLastSlash rest with
    | some ab =>
      obtain ⟨a', b'⟩ := ab
      simp only [hs, Option.some.injEq, Prod.mk.injEq] at h
      obtain ⟨rfl, rfl⟩ := h
      obtain ⟨hl, hb⟩ := ih hs
      exact ⟨by rw [List.cons_append, ← hl], hb⟩
    | none =>
      simp only [hs] at h
      by_cases hc : c = '/'
      · rw [if_pos hc] at h
        simp only [Option.some.injEq, Prod.mk.injEq] at h
        obtain ⟨rfl, rfl⟩ := h
        subst hc
        exact ⟨rfl, splitLastSlash_eq_none hs⟩
      · rw [if_neg hc] at h
        exact absurd h (by simp)

theorem takeWhile_append_stop (p : Char → Bool) (l : List Char) (x : Char)
    (rest : List Char) (hl : ∀ c ∈ l, p c = true) (hx : p x = false) :
    (l ++ x :: rest).takeWhile p = l ∧ (l ++ x :: rest).dropWhile p = x :: rest := by
  induction l with
  | nil => simp [List.takeWhile_cons, List.dropWhile_cons, hx]
  | cons c cs ih =>
    have hc : p c = true := hl c (List.mem_cons_self c cs)
    have ih' := ih (fun d hd => hl d (List.mem_cons_of_mem _ hd))
    simp [List.cons_append, List.takeWhile_cons, List.dropWhile_cons, hc,
      ih'.1, ih'.2]

theorem isPrefixOf_append_self : ∀ (p t : List Char), p.isPrefixOf (p ++ t) = true
  | [], _ => by simp [List.isPrefixOf]
  | a :: as, t => by
    simp only [List.cons_append, List.isPrefixOf_cons₂_self]
    exact isPrefixOf_append_self as t

theorem isPrefixOf_exists : ∀ {p l : List Char}, p.isPrefixOf l = true →
    ∃ t, l = p ++ t := by
  intro p
  induction p with
  | nil => exact fun h => ⟨_, rfl⟩
  | cons a as ih =>
    intro l h
    cases l with
    | nil => simp [List.isPrefixOf] at h
    | cons b bs =>
      rw [List.isPrefixOf_cons₂, Bool.and_eq_true] at h
      obtain ⟨h1, h2⟩ := h
      obtain ⟨t, rfl⟩ := ih h2
      exact ⟨t, by rw [List.cons_append, eq_of_beq h1]⟩

theorem dropWhile_head_false {p : Char → Bool} {l : List Char} {x : Char}
    {xs : List Char} (h : l.dropWhile p = x :: xs) : p x = false := by
  induction l with
  | nil => simp at h
  | cons c cs ih =>
    rw [List.dropWhile_cons] at h
    by_cases hc : p c = true
    · rw [if_pos hc] at h
      exact ih h
    · rw [if_neg hc] at h
      injection h with h1 _
      subst h1
      simpa using hc

theorem dropScheme_https (t : List Char) :
    dropScheme ("https://".data ++ t) = some t := by
  unfold dropScheme
  rw [if_pos (isPrefixOf_append_self _ t)]
  rw [List.drop_left' (by rfl)]

theorem dropScheme_http (t : List Char) :
    dropScheme ("http://".data ++ t) = some t := by
  unfold dropScheme
  have hf : "https://".data.isPrefixOf ("http://".data ++ t) = false := rfl
  rw [if_neg (by simp [hf])]
  rw [if_pos (isPrefixOf_append_self _ t)]
  rw [List.drop_left' (by rfl)]

theorem dropScheme_eq_some {l r : List Char} (h : dropScheme l = some r) :
    l = "https://".data ++ r ∨ l = "http://".data ++ r := by
  unfold dropScheme at h
  by_cases h1 : "https://".data.isPrefixOf l = true
  · left
    rw [if_pos h1] at h
    obtain ⟨t, ht⟩ := isPrefixOf_exists h1
    rw [ht, List.drop_left' (by rfl)] at h
    injection h with h'
    rw [ht, h']
  · rw [if_neg h1] at h
    by_cases h2 : "http://".data.isPrefixOf l = true
    · right
      rw [if_pos h2] at h
      obtain ⟨t, ht⟩ := isPrefixOf_exists h2
      rw [ht, List.drop_left' (by rfl)] at h
      injection h with h'
      rw [ht, h']
    · rw [if_neg h2] at h
      exact absurd h (by simp)

theorem digit_ne_slash {c : Char} (h : c.isDigit = true) : c ≠ '/' := by
  intro hc
  subst hc
  simp at h

theorem isDigit_isPyDigit {c : Char} (h : c.isDigit = true) : isPyDigit c = true := by
  simp [isPyDigit, h]

theorem pyDigit_ascii {c : Char} (hc : c.toNat < 128) (h : isPyDigit c = true) :
    c.isDigit = true := by
  unfold isPyDigit at h
  rw [Bool.or_eq_true] at h
  rcases h with h | h
  · exact h
  · exfalso
    rw [List.any_eq_true] at h
    obtain ⟨p, hp, hb⟩ := h
    rw [Bool.and_eq_true] at hb
    have h1 : p.1 ≤ c.toNat := of_decide_eq_true hb.1
    have hlow : ∀ q ∈ pyNdRanges, 1536 ≤ q.1 := by decide
    have := hlow p hp
    omega

theorem digitsDollar_digits {num : List Char} (hnum : num ≠ [])
    (hnumc : ∀ c ∈ num, isPyDigit c = true) : digitsDollar num = some num := by
  unfold digitsDollar
  rw [if_pos ⟨hnum, List.all_eq_true.mpr hnumc⟩]

theorem digitsDollar_eq_some {t num : List Char} (h : digitsDollar t = some num) :
    num ≠ [] ∧ (∀ c ∈ num, isPyDigit c = true) ∧ (t = num ∨ t = num ++ ['\n']) := by
  unfold digitsDollar at h
  by_cases h1 : t ≠ [] ∧ t.all isPyDigit = true
  · rw [if_pos h1] at h
    injection h with h'
    subst h'
    exact ⟨h1.1, List.all_eq_true.mp h1.2, Or.inl rfl⟩
  · rw [if_neg h1] at h
    by_cases h2 : t.dropLast ≠ [] ∧ t.dropLast.all isPyDigit = true ∧
        t.getLast? = some '\n'
    · rw [if_pos h2] at h
      injection h with h'
      subst h'
      obtain ⟨hd1, hd2, hd3⟩ := h2
      refine ⟨hd1, List.all_eq_true.mp hd2, Or.inr ?_⟩
      have hne : t ≠ [] := by intro ht; subst ht; simp at hd3
      have hcat := List.dropLast_concat_getLast hne
      have hg : t.getLast hne = '\n' := by
        have hgl := List.getLast?_eq_getLast t hne
        rw [hd3] at hgl
        injection hgl with h''
        exact h''.symm
      rw [hg] at hcat
      exact hcat.symm
    · rw [if_neg h2] at h
      exact absurd h (by simp)

theorem parseServerRest_shape (server slug num : List Char)
    (hserver : server ≠ []) (hserverc : ∀ c ∈ server, c ≠ '/')
    (hslug : slug ≠ []) (hslugc : ∀ c ∈ slug, c ≠ '\n')
    (hnum : num ≠ []) (hnumc : ∀ c ∈ num, c.isDigit = true) :
    parseServerRest (server ++ ('/' :: (slug ++ ('/' :: num)))) =
      some (server, slug, num) := by
  have hps : ∀ c ∈ server, (fun c => decide (c ≠ '/')) c = true :=
    fun c hc => decide_eq_true (hserverc c hc)
  have hx : (fun c => decide (c ≠ '/')) '/' = false := by simp
  obtain ⟨ht2, hd2⟩ := takeWhile_append_stop _ server '/' (slug ++ ('/' :: num)) hps hx
  unfold parseServerRest
  rw [ht2, hd2]
  rw [if_neg hserver]
  dsimp only
  rw [splitLastSlash_append slug num (fun c hc => digit_ne_slash (hnumc c hc))]
  dsimp only
  rw [digitsDollar_digits hnum (fun c hc => isDigit_isPyDigit (hnumc c hc))]
  dsimp only
  rw [if_pos ⟨hslug, by
      rw [List.all_eq_true]; exact fun c hc => decide_eq_true (hslugc c hc)⟩]

theorem parseHostPath_shape (host server slug num : List Char)
    (hhost : host ≠ []) (hhostc : ∀ c ∈ host, c ≠ '/')
    (hserver : server ≠ []) (hserverc : ∀ c ∈ server, c ≠ '/')
    (hslug : slug ≠ []) (hslugc : ∀ c ∈ slug, c ≠ '\n')
    (hnum : num ≠ []) (hnumc : ∀ c ∈ num, c.isDigit = true) :
    parseHostPath
        (host ++ ("/embed/".data ++ (server ++ ('/' :: (slug ++ ('/' :: num)))))) =
      some (server, slug, num) := by
  have hp : ∀ c ∈ host, (fun c => decide (c ≠ '/')) c = true :=
    fun c hc => decide_eq_true (hhostc c hc)
  have hx : (fun c => decide (c ≠ '/')) '/' = false := by simp
  have hshape1 : "/embed/".data ++ (server ++ ('/' :: (slug ++ ('/' :: num)))) =
      '/' :: ("embed/".data ++ (server ++ ('/' :: (slug ++ ('/' :: num))))) := rfl
  obtain ⟨ht, hd⟩ := takeWhile_append_stop _ host '/'
    ("embed/".data ++ (server ++ ('/' :: (slug ++ ('/' :: num))))) hp hx
  unfold parseHostPath
  rw [hshape1, ht, hd]
  rw [if_neg hhost]
  rw [← hshape1]
  rw [if_pos (isPrefixOf_append_self "/embed/".data _)]
  rw [List.drop_left' (by rfl)]
  exact parseServerRest_shape server slug num hserver hserverc hslug hslugc hnum hnumc

theorem mk_data_eq (s : String) : String.mk s.data = s := by cases s; rfl

theorem data_ne_nil {s : String} (hs : s ≠ "") : s.data ≠ [] := by
  intro hd
  exact hs (String.ext (by rw [hd]))

theorem mk_ne_empty {l : List Char} (hl : l ≠ []) : String.mk l ≠ "" := by
  intro h
  exact hl (congrArg String.data h)

/-! ## Claim theorems: embed-URL parser -/

/-- C4 counterexample: the regex only accepts the schemes `http` and
`https`, so an embed URL of the claimed shape with scheme `ftp` fails to
parse; and a slug containing a newline also fails (`.` does not match a
newline), so the slug is not arbitrary either. -/
theorem parse_embed_url_counterexample :
    parse_embed_url "ftp://host/embed/echo/team-a-vs-team-b-12345/1" = none ∧
    parse_embed_url "https://host/embed/echo/a\nb/1" = none := by
  exact ⟨by decide, by decide⟩

/-- C4 (amended): for every embed URL of the shape
`scheme://host/embed/<server>/<slug>/<digits>` with scheme `http` or
`https`, non-empty host and server without `/`, a non-empty slug free of
newlines (which may contain `/`), and a non-empty digit suffix, `parse`
returns the three components with the slug captured whole and verbatim. -/
theorem parse_embed_url_shape (scheme host server slug num : String)
    (hscheme : scheme = "http" ∨ scheme = "https")
    (hhost : host ≠ "") (hhostc : ∀ c ∈ host.data, c ≠ '/')
    (hserver : server ≠ "") (hserverc : ∀ c ∈ server.data, c ≠ '/')
    (hslug : slug ≠ "") (hslugc : ∀ c ∈ slug.data, c ≠ '\n')
    (hnum : num ≠ "") (hnumc : ∀ c ∈ num.data, c.isDigit = true) :
    parse_embed_url
        (scheme ++ "://" ++ host ++ "/embed/" ++ server ++ "/" ++ slug ++ "/" ++ num) =
      some (server, slug, num) := by
  have hcore := parseHostPath_shape host.data server.data slug.data num.data
    (data_ne_nil hhost) hhostc (data_ne_nil hserver) hserverc
    (data_ne_nil hslug) hslugc (data_ne_nil hnum) hnumc
  unfold parse_embed_url parseEmbedChars
  rcases hscheme with rfl | rfl
  · have hdata :
        ("http" ++ "://" ++ host ++ "/embed/" ++ server ++ "/" ++ slug ++ "/" ++ num).data
          = "http://".data ++ (host.data ++ ("/embed/".data ++
              (server.data ++ ('/' :: (slug.data ++ ('/' :: num.data)))))) := by
      simp only [String.data_append, List.append_assoc]
      rfl
    rw [hdata, dropScheme_http]
    simp only [Option.bind_eq_bind, Option.some_bind]
    rw [hcore]
    simp [mk_data_eq]
  · have hdata :
        ("https" ++ "://" ++ host ++ "/embed/" ++ server ++ "/" ++ slug ++ "/" ++ num).data
          = "https://".data ++ (host.data ++ ("/embed/".data ++
              (server.data ++ ('/' :: (slug.data ++ ('/' :: num.data)))))) := by
      simp only [String.data_append, List.append_assoc]
      rfl
    rw [hdata, dropScheme_https]
    simp only [Option.bind_eq_bind, Option.some_bind]
    rw [hcore]
    simp [mk_data_eq]

/-- Witness for C4's amended theorem: the spec's concrete example. -/
theorem parse_embed_url_shape_witness :
    parse_embed_url "https://host/embed/echo/team-a-vs-team-b-12345/1" =
      some ("echo", "team-a-vs-team-b-12345", "1") := by
  have h := parse_embed_url_shape "https" "host" "echo" "team-a-vs-team-b-12345" "1"
    (Or.inr rfl) (by decide) (by decide) (by decide) (by decide) (by decide)
    (by decide) (by decide) (by decide)
  exact h

theorem parseServerRest_sound {r2 server slug num : List Char}
    (h : parseServerRest r2 = some (server, slug, num)) :
    server ≠ [] ∧ (∀ c ∈ server, c ≠ '/') ∧ slug ≠ [] ∧ num ≠ [] ∧
      (∀ c ∈ num, isPyDigit c = true) ∧
      (r2 = server ++ ('/' :: (slug ++ ('/' :: num))) ∨
       r2 = server ++ ('/' :: (slug ++ ('/' :: (num ++ ['\n']))))) := by
  unfold parseServerRest at h
  by_cases h1 : r2.takeWhile (fun c => decide (c ≠ '/')) = []
  · rw [if_pos h1] at h
    exact absurd h (by simp)
  · rw [if_neg h1] at h
    cases hdw : r2.dropWhile (fun c => decide (c ≠ '/')) with
    | nil =>
      rw [hdw] at h
      simp at h
    | cons x r4 =>
      simp only [hdw] at h
      cases hsp : splitLastSlash r4 with
      | none => simp [hsp] at h
      | some ab =>
        obtain ⟨sl, t⟩ := ab
        simp only [hsp] at h
        cases hdd : digitsDollar t with
        | none => simp [hdd] at h
        | some nm =>
          simp only [hdd] at h
          split at h
          · rename_i hcond
            obtain ⟨hsl, hslall⟩ := hcond
            simp only [Option.some.injEq, Prod.mk.injEq] at h
            obtain ⟨hsv, rfl, rfl⟩ := h
            subst hsv
            have hx : x = '/' := by
              have := dropWhile_head_false hdw
              simpa using this
            subst hx
            obtain ⟨hr4, -⟩ := splitLastSlash_eq_some hsp
            obtain ⟨hnm, hnmc, ht⟩ := digitsDollar_eq_some hdd
            have hsplit : r2 = r2.takeWhile (fun c => decide (c ≠ '/')) ++
                r2.dropWhile (fun c => decide (c ≠ '/')) :=
              (List.takeWhile_append_dropWhile _ r2).symm
            rw [hdw, hr4] at hsplit
            refine ⟨h1, ?_, hsl, hnm, hnmc, ?_⟩
            · intro c hc
              have := List.mem_takeWhile_imp hc
              simpa using this
            · rcases ht with rfl | rfl
              · exact Or.inl hsplit
              · exact Or.inr hsplit
          · exact absurd h (by simp)

theorem parseHostPath_sound {r0 server slug num : List Char}
    (h : parseHostPath r0 = some (server, slug, num)) :
    ∃ host r2, host ≠ [] ∧ (∀ c ∈ host, c ≠ '/') ∧
      r0 = host ++ ("/embed/".data ++ r2) ∧
      parseServerRest r2 = some (server, slug, num) := by
  unfold parseHostPath at h
  by_cases h1 : r0.takeWhile (fun c => decide (c ≠ '/')) = []
  · rw [if_pos h1] at h
    exact absurd h (by simp)
  · rw [if_neg h1] at h
    by_cases h2 : "/embed/".data.isPrefixOf (r0.dropWhile (fun c => decide (c ≠ '/'))) = true
    · rw [if_pos h2] at h
      obtain ⟨t, ht⟩ := isPrefixOf_exists h2
      refine ⟨r0.takeWhile (fun c => decide (c ≠ '/')), t, h1, ?_, ?_, ?_⟩
      · intro c hc
        have := List.mem_takeWhile_imp hc
        simpa using this
      · have hsplit : r0 = r0.takeWhile (fun c => decide (c ≠ '/')) ++
            r0.dropWhile (fun c => decide (c ≠ '/')) :=
          (List.takeWhile_append_dropWhile _ r0).symm
        rw [ht] at hsplit
        exact hsplit
      · rw [ht, List.drop_left' (by rfl)] at h
        exact h
    · rw [if_neg h2] at h
      exact absurd h (by simp)

theorem parse_embed_url_sound {url : String} {out : String × String × String}
    (h : parse_embed_url url = some out)
    (hascii : ∀ c ∈ url.data, c.toNat < 128) : EmbedShapeLN url := by
  unfold parse_embed_url at h
  cases hpc : parseEmbedChars url.data with
  | none => simp [hpc] at h
  | some t =>
    obtain ⟨sv, sl, nm⟩ := t
    unfold parseEmbedChars at hpc
    cases hds : dropScheme url.data with
    | none => simp [hds] at hpc
    | some r0 =>
      simp only [hds, Option.bind_eq_bind, Option.some_bind] at hpc
      obtain ⟨host, r2, hh1, hh2, hr0, hps⟩ := parseHostPath_sound hpc
      obtain ⟨hsv1, hsv2, hsl1, hnm1, hnm2, hr2⟩ := parseServerRest_sound hps
      have hdig : ∀ c ∈ nm, c.isDigit = true := by
        intro c hc
        refine pyDigit_ascii (hascii c ?_) (hnm2 c hc)
        rcases dropScheme_eq_some hds with hurl | hurl <;>
          (rw [hurl, hr0]
           rcases hr2 with hr2 | hr2 <;> rw [hr2] <;>
             simp [List.mem_append, List.mem_cons, hc])
      rcases dropScheme_eq_some hds with hurl | hurl
      · refine ⟨"https", String.mk host, String.mk sv, String.mk sl, String.mk nm,
          mk_ne_empty hh1, hh2, mk_ne_empty hsv1, hsv2, mk_ne_empty hsl1,
          mk_ne_empty hnm1, hdig, ?_⟩
        rcases hr2 with hr2 | hr2
        · refine Or.inl ?_
          apply String.ext
          rw [hurl, hr0, hr2]
          simp only [String.data_append, List.append_assoc]
          rfl
        · refine Or.inr ?_
          apply String.ext
          rw [hurl, hr0, hr2]
          simp only [String.data_append, List.append_assoc]
          rfl
      · refine ⟨"http", String.mk host, String.mk sv, String.mk sl, String.mk nm,
          mk_ne_empty hh1, hh2, mk_ne_empty hsv1, hsv2, mk_ne_empty hsl1,
          mk_ne_empty hnm1, hdig, ?_⟩
        rcases hr2 with hr2 | hr2
        · refine Or.inl ?_
          apply String.ext
          rw [hurl, hr0, hr2]
          simp only [String.data_append, List.append_assoc]
          rfl
        · refine Or.inr ?_
          apply String.ext
          rw [hurl, hr0, hr2]
          simp only [String.data_append, List.append_assoc]
          rfl

theorem embedShapeHasEmbedSegment {url : String} (h : EmbedShapeLN url) :
    "/embed/".data <:+: url.data := by
  obtain ⟨scheme, host, server, slug, num, -, -, -, -, -, -, -, hurl⟩ := h
  rcases hurl with hurl | hurl
  · refine ⟨(scheme ++ "://" ++ host).data,
      (server ++ "/" ++ slug ++ "/" ++ num).data, ?_⟩
    rw [hurl]
    simp only [String.data_append, List.append_assoc]
  · refine ⟨(scheme ++ "://" ++ host).data,
      (server ++ "/" ++ slug ++ "/" ++ num ++ "\n").data, ?_⟩
    rw [hurl]
    simp only [String.data_append, List.append_assoc]

/-- C5 counterexample: Python's `$` (without `re.MULTILINE`) also matches
just before a newline that ends the string, so
`parse("https://host/embed/a/b/1\n")` succeeds with `("a", "b", "1")` even
though that URL does not match the shape
`scheme://host/embed/<server>/<slug>/<digits>` (its digit component would
have to end in the newline). -/
theorem parse_trailing_newline_counterexample :
    parse_embed_url "https://host/embed/a/b/1\n" = some ("a", "b", "1") ∧
    ¬ EmbedShape "https://host/embed/a/b/1\n" := by
  constructor
  · decide
  · intro hs
    obtain ⟨scheme, host, server, slug, num, -, -, -, -, -, hnum, hdig, hurl⟩ := hs
    have h1 : ("https://host/embed/a/b/1\n" : String).data.getLast? = some '\n' := by
      decide
    rw [hurl] at h1
    simp only [String.data_append] at h1
    rw [List.getLast?_append] at h1
    obtain ⟨c, hc⟩ := Option.isSome_iff_exists.mp
      (List.getLast?_isSome.mpr (data_ne_nil hnum))
    rw [hc] at h1
    simp only [Option.or_some, Option.some.injEq] at h1
    subst h1
    have hmem : '\n' ∈ num.data := List.mem_of_mem_getLast? hc
    exact absurd (hdig '\n' hmem) (by decide)

/-- C5 (amended): every embed URL made of ASCII characters that does not
match the shape `scheme://host/embed/<server>/<slug>/<digits>` — with the
shape taken as the program's regex delimits it, i.e. also allowing exactly
one trailing newline after the digits — fails to parse, returning `None`
(the MalformedReference condition); in particular
`parse("https://host/not-embed/x/1")` fails. -/
theorem parse_rejects_nonmatching :
    (∀ url : String, (∀ c ∈ url.data, c.toNat < 128) → ¬ EmbedShapeLN url →
      parse_embed_url url = none) ∧
    parse_embed_url "https://host/not-embed/x/1" = none := by
  constructor
  · intro url hascii hn
    cases h : parse_embed_url url with
    | none => rfl
    | some out => exact absurd (parse_embed_url_sound h hascii) hn
  · decide

/-- Witness for C5 at the spec's concrete rejected URL, whose character
list is ASCII and contains no `/embed/` segment. -/
theorem parse_rejects_nonmatching_witness :
    parse_embed_url "https://host/not-embed/x/1" = none :=
  parse_rejects_nonmatching.1 "https://host/not-embed/x/1" (by decide)
    (fun hs => absurd (embedShapeHasEmbedSegment hs) (by decide))

end StreamCrawler
